import Mathlib

/-!
Verification development for the dev-trace capture-and-sync pipeline.

The definitions below are a shallow embedding of the Python sources:
`devtrace/storage.py` (LocalStore), `devtrace/sync.py` (sync_pending_events),
`devtrace/server.py` (CentralStore), `devtrace/git_metrics.py`
(_parse_numstat / collect_git_diff_metrics) and `devtrace/utils.py`
(hash_command).  SQLite tables are modelled as association lists keyed by
their primary key, with row order the table insertion order; a SQLite
transaction (one connection, one commit) is modelled as a single Lean
function producing the next state, and a rolled-back transaction returns
the original state.  Python exceptions that escape a function are modelled
with `Except.error`.  SQL REAL columns and Python floats are modelled as
`Rat`: the embedded operations only store and move these values, never
compute with them.
-/

namespace DevTrace

/-- SQL REAL / Python float payload values (stored, never computed with). -/
abbrev Real' := Rat

/-- `devtrace/types.py` `CommandMetrics` (pydantic model, immutable). -/
structure CommandMetrics where
  command_hash : String
  duration_ms : Int
  exit_code : Int
  timed_out : Bool
  files_touched_count : Int
  lines_added : Int
  lines_deleted : Int
deriving DecidableEq

/-- `devtrace/types.py` `ModelPrediction`. -/
structure ModelPrediction where
  predicted_productivity : Real'
  top_contribution_feature : String
  top_contribution_value : Real'
  model_ref : String
deriving DecidableEq

/-- A row of the `command_events` table (`devtrace/storage.py` schema). -/
structure CommandEvent where
  id : String
  agent_id : Option String
  executed_at : Real'
  command_hash : String
  duration_ms : Int
  exit_code : Int
  timed_out : Int
  files_touched_count : Int
  lines_added : Int
  lines_deleted : Int
  predicted_productivity : Option Real'
  top_contribution_feature : Option String
  top_contribution_value : Option Real'
  model_ref : Option String
deriving DecidableEq

/-- `sync_queue.status`: the code only ever writes 'pending' and 'synced'. -/
inductive SyncStatus where
  | pending
  | synced
deriving DecidableEq

/-- A row of the `sync_queue` table, minus its `event_id` key. -/
structure SyncQueueEntry where
  status : SyncStatus
  attempts : Nat
  last_attempt_at : Option Real'
  last_error : Option String
deriving DecidableEq

/-- The two tables owned by `LocalStore`; rows in insertion order, keyed by
their TEXT PRIMARY KEY (`command_events.id`, `sync_queue.event_id`). -/
structure LocalStore where
  events : List CommandEvent
  queue : List (String × SyncQueueEntry)
deriving DecidableEq

/-- First-match association-list lookup (SQL point query on a key column). -/
def alookup {β : Type} : List (String × β) → String → Option β
  | [], _ => none
  | r :: rest, i => if r.1 = i then some r.2 else alookup rest i

/-- `UPDATE ... WHERE key = i` applied with row transformer `f`. -/
def aupdate {β : Type} (f : β → β) (i : String) :
    List (String × β) → List (String × β)
  | [] => []
  | r :: rest =>
      (if r.1 = i then (r.1, f r.2) else r) :: aupdate f i rest

/-- Whether a key is present (SQL `EXISTS` on the key column). -/
def hasKey {β : Type} (l : List (String × β)) (i : String) : Bool :=
  l.any (fun r => decide (r.1 = i))

/-- Python string slicing `s[:n]` (by code points). -/
def pyTruncate (s : String) (n : Nat) : String := ⟨s.data.take n⟩

/-- `executemany` of a single-row keyed UPDATE over a list of ids. -/
def bulkUpdate {β : Type} (f : β → β) (ids : List String)
    (l : List (String × β)) : List (String × β) :=
  ids.foldl (fun acc i => aupdate f i acc) l

/-- The zero-footprint guard at the top of
`LocalStore.insert_command_event` (storage.py lines 97-102). -/
def zeroFootprint (m : CommandMetrics) : Bool :=
  m.files_touched_count = 0 && m.lines_added = 0 && m.lines_deleted = 0

/-- Outcome of `insert_command_event`: the returned event id, the `None`
return for a zero-footprint record, or a raised `sqlite3.IntegrityError`
(PRIMARY KEY conflict; the transaction is rolled back). -/
inductive InsertResult where
  | inserted (event_id : String)
  | skipped
  | integrityError
deriving DecidableEq

/-- The `command_events` row written by `insert_command_event`
(storage.py lines 106-130). -/
def newEventRow (agent_id : Option String) (m : CommandMetrics)
    (pred : Option ModelPrediction) (event_id : String) (t : Real') :
    CommandEvent :=
  { id := event_id
    agent_id := agent_id
    executed_at := t
    command_hash := m.command_hash
    duration_ms := m.duration_ms
    exit_code := m.exit_code
    timed_out := if m.timed_out then 1 else 0
    files_touched_count := m.files_touched_count
    lines_added := m.lines_added
    lines_deleted := m.lines_deleted
    predicted_productivity := pred.map (·.predicted_productivity)
    top_contribution_feature := pred.map (·.top_contribution_feature)
    top_contribution_value := pred.map (·.top_contribution_value)
    model_ref := pred.map (·.model_ref) }

/-- `LocalStore.insert_command_event` (storage.py lines 91-133).  The
generated `new_id("evt")` value and the `now_ts()` timestamp are passed in
as parameters `event_id` and `t`.  Both INSERTs run in one transaction
with a single commit, so a PRIMARY KEY conflict on either table rolls the
whole transaction back, leaving the store unchanged. -/
def insert_command_event (s : LocalStore) (agent_id : Option String)
    (m : CommandMetrics) (pred : Option ModelPrediction)
    (event_id : String) (t : Real') : LocalStore × InsertResult :=
  if zeroFootprint m then
    (s, .skipped)
  else if s.events.any (fun ce => decide (ce.id = event_id)) ||
      hasKey s.queue event_id then
    (s, .integrityError)
  else
    ({ events := s.events ++ [newEventRow agent_id m pred event_id t]
       queue := s.queue ++
         [(event_id,
           { status := .pending, attempts := 0,
             last_attempt_at := none, last_error := none })] },
     .inserted event_id)

/-- `LocalStore.mark_synced` (storage.py lines 261-269): for each id, set
status to synced and record the attempt timestamp; nothing else changes. -/
def mark_synced (s : LocalStore) (event_ids : List String) (t : Real') :
    LocalStore :=
  { s with queue :=
      (bulkUpdate
        (fun e => { e with status := .synced, last_attempt_at := some t })
        event_ids s.queue) }

/-- `LocalStore.mark_sync_failed` (storage.py lines 271-285): for each id,
increment attempts, record the attempt timestamp and the error truncated
to 500 characters; status is not touched. -/
def mark_sync_failed (s : LocalStore) (event_ids : List String)
    (error : String) (t : Real') : LocalStore :=
  { s with queue :=
      (bulkUpdate
        (fun e =>
          { e with attempts := e.attempts + 1,
                   last_attempt_at := some t,
                   last_error := some (pyTruncate error 500) })
        event_ids s.queue) }

/-- A row of the `pending_sync_events` join: full event plus the queue
row's current attempt count. -/
structure PendingRow where
  event : CommandEvent
  attempts : Nat
deriving DecidableEq

/-- The join step of `pending_sync_events`: an event joined with its
queue row when that row's status is pending. -/
def pendingJoin (q : List (String × SyncQueueEntry)) (ce : CommandEvent) :
    Option PendingRow :=
  (alookup q ce.id).bind
    (fun sq => if sq.status = .pending then some ⟨ce, sq.attempts⟩ else none)

/-- `LocalStore.pending_sync_events` (storage.py lines 193-221): join
`command_events` with `sync_queue` on pending status, order by
`executed_at` ascending, limit `batch_size`. -/
def pending_sync_events (s : LocalStore) (batch_size : Nat) :
    List PendingRow :=
  ((s.events.filterMap (pendingJoin s.queue)).insertionSort
    (fun a b => a.event.executed_at ≤ b.event.executed_at)).take batch_size

/-- The response body as seen by `sync_pending_events` (sync.py lines
34-35): the body is read, decoded, an empty body is replaced by "{}", the
result is passed to `json.loads`, and `int()` is applied to the value at
key "accepted" (default 0). -/
inductive SyncResponseBody where
  | notJson
  | jsonNoAccepted
  | jsonAccepted (n : Int)
  | jsonAcceptedNotInt
deriving DecidableEq

/-- The remote side of one sync delivery: either the transport raises
`urllib.error.URLError` (connection failure or timeout), or a response
arrives with an HTTP status and a body. -/
inductive RemoteBehaviour where
  | transportError (msg : String)
  | response (status : Int) (body : SyncResponseBody)
deriving DecidableEq

/-- The accepted-count `int(payload.get("accepted", 0))` extracted from a
body, `none` when extracting it raises (`json.JSONDecodeError` from
`json.loads`, or `ValueError`/`TypeError` from `int`). -/
def acceptedOf : SyncResponseBody → Option Int
  | .notJson => none
  | .jsonNoAccepted => some 0
  | .jsonAccepted n => some n
  | .jsonAcceptedNotInt => none

/-- Non-success HTTP status test (sync.py line 32). -/
def badStatus (status : Int) : Bool :=
  status < 200 || 300 ≤ status

/-- The error string recorded for a failed delivery of a batch of size
`k`: `str(exc)` of the URLError, or the message of the RuntimeError
raised at sync.py line 33 or 37. -/
def failMessage (b : RemoteBehaviour) (k : Nat) : String :=
  match b with
  | .transportError msg => msg
  | .response status body =>
      if badStatus status then
        "sync failed with status " ++ toString status
      else
        "sync accepted " ++ toString ((acceptedOf body).getD 0) ++ "/" ++
          toString k ++ " events"

/-- Whether the delivery of a batch of size `k` is judged failed by the
code's caught-failure categories: transport error, non-success status, or
a reported accepted-count differing from `k`. -/
def judgedFailed (b : RemoteBehaviour) (k : Nat) : Bool :=
  match b with
  | .transportError _ => true
  | .response status body =>
      if badStatus status then true
      else
        match acceptedOf body with
        | some n => decide (n ≠ (k : Int))
        | none => false

/-- The exception message when extracting the accepted-count raises:
`json.loads` on a non-JSON body, or `int()` on a non-coercible value. -/
def bodyError : SyncResponseBody → String
  | .notJson => "json.JSONDecodeError"
  | .jsonAcceptedNotInt => "ValueError: invalid accepted value"
  | _ => ""

/-- `sync_pending_events` (sync.py lines 11-42), with the remote's
behaviour passed in as a parameter and `now_ts()` as `t`.  `Except.error`
models an exception escaping to the caller: only `urllib.error.URLError`
and `RuntimeError` are caught, so a `json.JSONDecodeError` from a
malformed 2xx body, or a `ValueError`/`TypeError` from `int()` on a
non-coercible "accepted" value, propagates (`acceptedOf body = none`). -/
def sync_pending_events (s : LocalStore) (b : RemoteBehaviour)
    (batch_size : Nat) (t : Real') :
    Except String (LocalStore × Nat × Nat) :=
  let pending := pending_sync_events s batch_size
  if pending.isEmpty then
    .ok (s, 0, 0)
  else
    let event_ids := pending.map (fun e => e.event.id)
    match b with
    | .transportError msg =>
        .ok (mark_sync_failed s event_ids msg t, 0, event_ids.length)
    | .response status body =>
        if badStatus status then
          .ok (mark_sync_failed s event_ids
                (failMessage (.response status body) event_ids.length) t,
               0, event_ids.length)
        else
          match acceptedOf body with
          | none => .error (bodyError body)
          | some n =>
              if n = (event_ids.length : Int) then
                (.ok (mark_synced s event_ids t, event_ids.length, 0))
              else
                (.ok (mark_sync_failed s event_ids
                       (failMessage (.response status body) event_ids.length) t,
                      0, event_ids.length))

/-- Python `str.split(sep)` with a one-character separator, on the
character list of the string. -/
def splitOnChar (sep : Char) : List Char → List (List Char)
  | [] => [[]]
  | c :: rest =>
      match splitOnChar sep rest with
      | [] => [[]]
      | cur :: others =>
          if c = sep then [] :: cur :: others else (c :: cur) :: others

/-- `line.split("\t")` (git_metrics.py line 13). -/
def splitTabs (line : String) : List String :=
  (splitOnChar (Char.ofNat 9) line.data).map (fun cs => ⟨cs⟩)

/-- A decimal digit's value. -/
def decDigit? (c : Char) : Option Nat :=
  if 48 ≤ c.toNat && c.toNat ≤ 57 then some (c.toNat - 48) else none

/-- Python `int()` on the alphabet git numstat emits in its numeric
fields: a non-empty decimal digit string parses to its value, anything
else raises `ValueError` (modelled as `none`). -/
def pyIntNat? (s : String) : Option Nat :=
  match s.data with
  | [] => none
  | cs => cs.foldl
      (fun acc c => acc.bind (fun n => (decDigit? c).map (fun d => n * 10 + d)))
      (some 0)

/-- A numeric numstat field (git_metrics.py lines 18-23): the placeholder
"-" contributes 0, anything else goes through Python `int()`, whose
failure (`ValueError`) is `Except.error`. -/
def parseNumstatField (s : String) : Except String Nat :=
  if s = "-" then .ok 0
  else
    match pyIntNat? s with
    | some n => .ok n
    | none => .error ("ValueError: invalid literal for int: " ++ s)

/-- The per-path accumulator update
`metrics_by_file[path] = (current_add + added, current_del + deleted)`:
a Python dict modelled as an insertion-ordered association list. -/
def dictAdd : List (String × Nat × Nat) → String → Nat → Nat →
    List (String × Nat × Nat)
  | [], p, a, d => [(p, a, d)]
  | (q, x, y) :: rest, p, a, d =>
      if q = p then (q, x + a, y + d) :: rest
      else (q, x, y) :: dictAdd rest p a d

/-- `metrics_by_file.get(path, (0, 0))`. -/
def dictGet : List (String × Nat × Nat) → String → Nat × Nat
  | [], _ => (0, 0)
  | (q, x, y) :: rest, p => if q = p then (x, y) else dictGet rest p

/-- One loop iteration of `_parse_numstat` (git_metrics.py lines 12-26):
split the line on tabs, skip it when fewer than three fields, else parse
the added and deleted fields and fold them into the accumulator. -/
def parseNumstatLine (m : List (String × Nat × Nat)) (line : String) :
    Except String (List (String × Nat × Nat)) :=
  match splitTabs line with
  | a :: d :: p :: _ =>
      match parseNumstatField a with
      | .error e => .error e
      | .ok added =>
          match parseNumstatField d with
          | .error e => .error e
          | .ok deleted => .ok (dictAdd m p added deleted)
  | _ => .ok m

/-- `_parse_numstat` (git_metrics.py lines 9-28).  Git terminates lines
with a single newline and `output.splitlines()` agrees with splitting on
a newline there (a trailing empty fragment splits into fewer than three
fields and is skipped either way). -/
def parse_numstat (output : String) :
    Except String (List (String × Nat × Nat)) :=
  ((splitOnChar (Char.ofNat 10) output.data).map
    (fun cs => (⟨cs⟩ : String))).foldlM parseNumstatLine []

/-- The merge loop of `collect_git_diff_metrics` (git_metrics.py lines
52-55): fold the staged report into the working-tree report. -/
def mergeNumstat (w s : List (String × Nat × Nat)) :
    List (String × Nat × Nat) :=
  s.foldl (fun c e => dictAdd c e.1 e.2.1 e.2.2) w

/-- The environment a `collect_git_diff_metrics` call runs against:
spawning git raises `OSError`, or both `git diff --numstat` and
`git diff --cached --numstat` complete with a return code and stdout. -/
inductive GitEnv where
  | spawnFailure
  | results (rcWorking : Int) (outWorking : String)
      (rcStaged : Int) (outStaged : String)
deriving DecidableEq

/-- `collect_git_diff_metrics` (git_metrics.py lines 31-60):  `OSError`
from spawning and a non-zero return code from either command degrade to
`(0, 0, 0)`; otherwise both stdouts are parsed and merged.  A
`ValueError` raised by `int()` inside `_parse_numstat` is not caught and
escapes (`Except.error`). -/
def collect_git_diff_metrics (env : GitEnv) :
    Except String (Nat × Nat × Nat) :=
  match env with
  | .spawnFailure => .ok (0, 0, 0)
  | .results rcWorking outWorking rcStaged outStaged =>
      if rcWorking ≠ 0 || rcStaged ≠ 0 then .ok (0, 0, 0)
      else
        match parse_numstat outWorking with
        | .error e => .error e
        | .ok w =>
            match parse_numstat outStaged with
            | .error e => .error e
            | .ok s =>
                let combined := mergeNumstat w s
                .ok (combined.length,
                     (combined.map (fun e => e.2.1)).sum,
                     (combined.map (fun e => e.2.2)).sum)

/-- A submitted event dict as seen by the ingest endpoint
(server.py): each required field is `none` when the key is missing. -/
structure IngestEventMsg where
  id : Option String
  agent_id : Option String
  executed_at : Option Real'
  command_hash : Option String
  duration_ms : Option Int
  exit_code : Option Int
  timed_out : Option Bool
  files_touched_count : Option Int
  lines_added : Option Int
  lines_deleted : Option Int
deriving DecidableEq

/-- `CentralStore._is_valid_event` (server.py lines 81-93): all required
keys present (`agent_id` is not required). -/
def isValidEvent (e : IngestEventMsg) : Bool :=
  e.id.isSome && e.executed_at.isSome && e.command_hash.isSome &&
    e.duration_ms.isSome && e.exit_code.isSome && e.timed_out.isSome &&
    e.files_touched_count.isSome && e.lines_added.isSome &&
    e.lines_deleted.isSome

/-- A row of the `ingested_events` table, minus its `id` key. -/
structure IngestedRow where
  agent_id : Option String
  executed_at : Real'
  command_hash : String
  duration_ms : Int
  exit_code : Int
  timed_out : Int
  files_touched_count : Int
  lines_added : Int
  lines_deleted : Int
deriving DecidableEq

/-- The coerced VALUES tuple of the server INSERT (server.py lines
64-75); only evaluated on events that passed `_is_valid_event`, so the
defaults for absent fields are never read. -/
def ingestedRowOf (e : IngestEventMsg) : IngestedRow :=
  { agent_id := e.agent_id
    executed_at := e.executed_at.getD 0
    command_hash := e.command_hash.getD ""
    duration_ms := e.duration_ms.getD 0
    exit_code := e.exit_code.getD 0
    timed_out := if e.timed_out.getD false then 1 else 0
    files_touched_count := e.files_touched_count.getD 0
    lines_added := e.lines_added.getD 0
    lines_deleted := e.lines_deleted.getD 0 }

/-- `INSERT OR IGNORE` keyed by `id`: a row whose id is already present
is a silent no-op. -/
def insertOrIgnore (table : List (String × IngestedRow)) (eid : String)
    (row : IngestedRow) : List (String × IngestedRow) :=
  if hasKey table eid then table else table ++ [(eid, row)]

/-- `CentralStore.insert_batch` (server.py lines 43-79): returns the
updated `ingested_events` table and the accepted count.  `accepted` is
incremented for every valid event, whether or not the INSERT OR IGNORE
actually inserted. -/
def insert_batch (table : List (String × IngestedRow)) :
    List IngestEventMsg → List (String × IngestedRow) × Nat
  | [] => (table, 0)
  | e :: rest =>
      if isValidEvent e then
        match e.id with
        | some i =>
            let out := insert_batch (insertOrIgnore table i (ingestedRowOf e)) rest
            (out.1, out.2 + 1)
        | none => insert_batch table rest
      else insert_batch table rest

/-- The I/O actions `export_events` performs, in program order
(storage.py lines 164-191). -/
inductive ExportEffect where
  | dbRead
  | mkdirParent
  | openOutputFile
  | writeRows
deriving DecidableEq

/-- `LocalStore.export_events` (storage.py lines 164-191) as an effect
trace plus outcome: it always first reads all stored events and runs
`output_path.parent.mkdir(parents=True, exist_ok=True)`, then branches on
the format; an unknown format raises
`ValueError(f"unsupported format: {fmt}")` after those two actions.
`pandasAvailable` models the `importlib.util.find_spec` probes of the
parquet branch. -/
def export_events (rows : List CommandEvent) (fmt : String)
    (pandasAvailable : Bool) : List ExportEffect × Except String Nat :=
  let base : List ExportEffect := [.dbRead, .mkdirParent]
  if fmt = "csv" then
    (base ++ [.openOutputFile, .writeRows], .ok rows.length)
  else if fmt = "parquet" then
    if pandasAvailable then
      (base ++ [.openOutputFile, .writeRows], .ok rows.length)
    else
      (base, .error "RuntimeError: parquet export requires pandas and pyarrow")
  else if fmt = "jsonl" then
    (base ++ [.openOutputFile, .writeRows], .ok rows.length)
  else
    (base, .error ("ValueError: unsupported format: " ++ fmt))

/-- The reserved separator byte of `hash_command` (utils.py line 25):
U+001F, "\x1f". -/
def sepChar : Char := Char.ofNat 31

/-- The one-character separator string. -/
def sepString : String := ⟨[sepChar]⟩

/-- Python `"\x1f".join(command)` (utils.py line 25). -/
def joinSep : List String → String
  | [] => ""
  | [s] => s
  | s :: rest => s ++ sepString ++ joinSep rest

/-- UTF-8 encoding of one scalar value (`str.encode("utf-8")` per
character). -/
def utf8EncodeChar (c : Char) : List Nat :=
  let n := c.toNat
  if n < 128 then [n]
  else if n < 2048 then [192 + n / 64, 128 + n % 64]
  else if n < 65536 then
    [224 + n / 4096, 128 + (n / 64) % 64, 128 + n % 64]
  else
    [240 + n / 262144, 128 + (n / 4096) % 64, 128 + (n / 64) % 64,
     128 + n % 64]

/-- `raw.encode("utf-8")` as a byte list. -/
def utf8Bytes (s : String) : List Nat :=
  (s.data.map utf8EncodeChar).flatten

/-- 32-bit modular addition. -/
def add32 (a b : Nat) : Nat := (a + b) % 4294967296

/-- 32-bit bitwise complement. -/
def not32 (a : Nat) : Nat := Nat.xor a 4294967295

/-- Right rotation of a 32-bit word. -/
def rotr32 (n a : Nat) : Nat :=
  Nat.lor (a >>> n) (Nat.land (a <<< (32 - n)) 4294967295)

def sha256SmallSigma0 (x : Nat) : Nat :=
  Nat.xor (rotr32 7 x) (Nat.xor (rotr32 18 x) (x >>> 3))

def sha256SmallSigma1 (x : Nat) : Nat :=
  Nat.xor (rotr32 17 x) (Nat.xor (rotr32 19 x) (x >>> 10))

def sha256BigSigma0 (x : Nat) : Nat :=
  Nat.xor (rotr32 2 x) (Nat.xor (rotr32 13 x) (rotr32 22 x))

def sha256BigSigma1 (x : Nat) : Nat :=
  Nat.xor (rotr32 6 x) (Nat.xor (rotr32 11 x) (rotr32 25 x))

def sha256Ch (e f g : Nat) : Nat :=
  Nat.xor (Nat.land e f) (Nat.land (not32 e) g)

def sha256Maj (a b c : Nat) : Nat :=
  Nat.xor (Nat.land a b) (Nat.xor (Nat.land a c) (Nat.land b c))

def sha256K : List Nat := [
  1116352408, 1899447441, 3049323471, 3921009573,
  961987163, 1508970993, 2453635748, 2870763221,
  3624381080, 310598401, 607225278, 1426881987,
  1925078388, 2162078206, 2614888103, 3248222580,
  3835390401, 4022224774, 264347078, 604807628,
  770255983, 1249150122, 1555081692, 1996064986,
  2554220882, 2821834349, 2952996808, 3210313671,
  3336571891, 3584528711, 113926993, 338241895,
  666307205, 773529912, 1294757372, 1396182291,
  1695183700, 1986661051, 2177026350, 2456956037,
  2730485921, 2820302411, 3259730800, 3345764771,
  3516065817, 3600352804, 4094571909, 275423344,
  430227734, 506948616, 659060556, 883997877,
  958139571, 1322822218, 1537002063, 1747873779,
  1955562222, 2024104815, 2227730452, 2361852424,
  2428436474, 2756734187, 3204031479, 3329325298
]

def sha256InitH : List Nat := [
  1779033703, 3144134277, 1013904242, 2773480762,
  1359893119, 2600822924, 528734635, 1541459225
]

/-- Big-endian byte expansion of a value into `n` bytes. -/
def bytesBE : Nat → Nat → List Nat
  | 0, _ => []
  | n + 1, v => bytesBE n (v / 256) ++ [v % 256]

/-- SHA-256 message padding. -/
def sha256Pad (msg : List Nat) : List Nat :=
  let zeros := (64 + 56 - (msg.length + 1) % 64) % 64
  msg ++ [128] ++ List.replicate zeros 0 ++ bytesBE 8 (msg.length * 8)

/-- Split a byte list into 64-byte blocks; the fuel argument only bounds
the recursion depth and any value at least the list length is enough. -/
def toBlocksAux : Nat → List Nat → List (List Nat)
  | 0, _ => []
  | _, [] => []
  | fuel + 1, l => l.take 64 :: toBlocksAux fuel (l.drop 64)

/-- Split the padded message into 64-byte blocks. -/
def toBlocks (l : List Nat) : List (List Nat) :=
  toBlocksAux l.length l

/-- Assemble big-endian 32-bit words from bytes. -/
def wordsOf : List Nat → List Nat
  | b0 :: b1 :: b2 :: b3 :: rest =>
      (((b0 * 256 + b1) * 256 + b2) * 256 + b3) :: wordsOf rest
  | _ => []

/-- One message-schedule extension step. -/
def extendStep (ws : List Nat) : List Nat :=
  let n := ws.length
  ws ++ [add32 (add32 (sha256SmallSigma1 (ws.getD (n - 2) 0)) (ws.getD (n - 7) 0))
           (add32 (sha256SmallSigma0 (ws.getD (n - 15) 0)) (ws.getD (n - 16) 0))]

/-- Iterate the schedule extension. -/
def extendWords : List Nat → Nat → List Nat
  | ws, 0 => ws
  | ws, k + 1 => extendWords (extendStep ws) k

/-- One compression round. -/
def sha256Round (st : Nat × Nat × Nat × Nat × Nat × Nat × Nat × Nat)
    (kw : Nat × Nat) : Nat × Nat × Nat × Nat × Nat × Nat × Nat × Nat :=
  let (a, b, c, d, e, f, g, h) := st
  let t1 := add32 h (add32 (sha256BigSigma1 e)
    (add32 (sha256Ch e f g) (add32 kw.1 kw.2)))
  let t2 := add32 (sha256BigSigma0 a) (sha256Maj a b c)
  (add32 t1 t2, a, b, c, add32 d t1, e, f, g)

/-- Process one 64-byte block against the running hash state. -/
def processBlock (H : List Nat) (block : List Nat) : List Nat :=
  let ws := extendWords (wordsOf block) 48
  let st0 := (H.getD 0 0, H.getD 1 0, H.getD 2 0, H.getD 3 0,
              H.getD 4 0, H.getD 5 0, H.getD 6 0, H.getD 7 0)
  let (a, b, c, d, e, f, g, h) := (sha256K.zip ws).foldl sha256Round st0
  [add32 (H.getD 0 0) a, add32 (H.getD 1 0) b, add32 (H.getD 2 0) c,
   add32 (H.getD 3 0) d, add32 (H.getD 4 0) e, add32 (H.getD 5 0) f,
   add32 (H.getD 6 0) g, add32 (H.getD 7 0) h]

def hexDigitChar (n : Nat) : Char :=
  if n < 10 then Char.ofNat (48 + n) else Char.ofNat (87 + n)

/-- Lower-case hex nibbles of a value, `k` nibbles wide. -/
def toHexNibbles : Nat → Nat → List Char
  | 0, _ => []
  | k + 1, v => toHexNibbles k (v / 16) ++ [hexDigitChar (v % 16)]

/-- `hashlib.sha256(bytes).hexdigest()`. -/
def sha256Hex (msg : List Nat) : String :=
  let final := (toBlocks (sha256Pad msg)).foldl processBlock sha256InitH
  ⟨(final.map (toHexNibbles 8)).flatten⟩

/-- `hash_command` (utils.py lines 23-26): hex-encoded SHA-256 over the
argument tokens joined by the reserved separator byte "\x1f". -/
def hash_command (command : List String) : String :=
  sha256Hex (utf8Bytes (joinSep command))

theorem alookup_aupdate {β : Type} (f : β → β) (i : String)
    (l : List (String × β)) (id : String) :
    alookup (aupdate f i l) id =
      if id = i then (alookup l id).map f else alookup l id := by
  induction l with
  | nil => simp [aupdate, alookup]
  | cons r rest ih =>
      by_cases hri : r.1 = i
      · by_cases hid : id = i
        · have hr : r.1 = id := by rw [hri, hid]
          simp [aupdate, alookup, hri, hid, hr]
        · have hr : r.1 ≠ id := by rw [hri]; exact fun e => hid e.symm
          have hir : i ≠ id := fun e => hid e.symm
          simp [aupdate, alookup, hri, hid, hr, hir, ih]
      · by_cases hr : r.1 = id
        · have hid : id ≠ i := by rw [← hr]; exact hri
          simp [aupdate, alookup, hri, hid, hr]
        · simp [aupdate, alookup, hri, hr, ih]

theorem alookup_bulkUpdate_not_mem {β : Type} (f : β → β) (ids : List String)
    (l : List (String × β)) (id : String) (h : id ∉ ids) :
    alookup (bulkUpdate f ids l) id = alookup l id := by
  induction ids generalizing l with
  | nil => rfl
  | cons j rest ih =>
      have hnj : id ≠ j := fun e => h (e ▸ List.mem_cons_self j rest)
      have hrest : id ∉ rest := fun hm => h (List.mem_cons_of_mem j hm)
      show alookup (bulkUpdate f rest (aupdate f j l)) id = alookup l id
      rw [ih (aupdate f j l) hrest, alookup_aupdate, if_neg hnj]

theorem alookup_bulkUpdate_mem {β : Type} (f : β → β) (ids : List String)
    (l : List (String × β)) (id : String) (hnd : ids.Nodup) (h : id ∈ ids) :
    alookup (bulkUpdate f ids l) id = (alookup l id).map f := by
  induction ids generalizing l with
  | nil => cases h
  | cons j rest ih =>
      obtain ⟨hnj, hndrest⟩ := List.nodup_cons.mp hnd
      rcases List.mem_cons.mp h with he | hmem
      · subst he
        show alookup (bulkUpdate f rest (aupdate f id l)) id = _
        rw [alookup_bulkUpdate_not_mem f rest _ _ hnj, alookup_aupdate,
          if_pos rfl]
      · have hne : id ≠ j := fun e => hnj (e ▸ hmem)
        show alookup (bulkUpdate f rest (aupdate f j l)) id = _
        rw [ih (aupdate f j l) hndrest hmem, alookup_aupdate, if_neg hne]

theorem map_fst_aupdate {β : Type} (f : β → β) (i : String)
    (l : List (String × β)) :
    (aupdate f i l).map Prod.fst = l.map Prod.fst := by
  induction l with
  | nil => rfl
  | cons r rest ih =>
      by_cases hr : r.1 = i <;> simp [aupdate, hr, ih]

theorem map_fst_bulkUpdate {β : Type} (f : β → β) (ids : List String)
    (l : List (String × β)) :
    (bulkUpdate f ids l).map Prod.fst = l.map Prod.fst := by
  induction ids generalizing l with
  | nil => rfl
  | cons j rest ih =>
      show (bulkUpdate f rest (aupdate f j l)).map Prod.fst = _
      rw [ih (aupdate f j l), map_fst_aupdate]

theorem hasKey_eq_true_iff {β : Type} (l : List (String × β)) (i : String) :
    hasKey l i = true ↔ i ∈ l.map Prod.fst := by
  simp [hasKey, List.any_eq_true, List.mem_map]

theorem hasKey_eq_false_iff {β : Type} (l : List (String × β)) (i : String) :
    hasKey l i = false ↔ i ∉ l.map Prod.fst := by
  rw [← hasKey_eq_true_iff]
  cases h : hasKey l i <;> simp

theorem alookup_append_fresh {β : Type} (l : List (String × β)) (i : String)
    (v : β) (h : hasKey l i = false) :
    alookup (l ++ [(i, v)]) i = some v := by
  induction l with
  | nil => simp [alookup]
  | cons r rest ih =>
      simp only [hasKey, List.any_cons, Bool.or_eq_false_iff,
        decide_eq_false_iff_not] at h
      simp only [List.cons_append, alookup, if_neg h.1]
      exact ih (by simp [hasKey, h.2])

theorem zeroFootprint_iff (m : CommandMetrics) :
    zeroFootprint m = true ↔
      m.files_touched_count = 0 ∧ m.lines_added = 0 ∧ m.lines_deleted = 0 := by
  simp [zeroFootprint, Bool.and_eq_true, decide_eq_true_eq, and_assoc]

/-- The store with both tables empty (fresh `ensure_storage`). -/
def emptyStore : LocalStore := ⟨[], []⟩

/-- A no-op metrics record (zero footprint). -/
def metricsZero : CommandMetrics := ⟨"noop", 5, 0, false, 0, 0, 0⟩

/-- A metrics record with a non-zero footprint. -/
def metricsOne : CommandMetrics := ⟨"abc", 25, 0, false, 1, 10, 2⟩

/-- C3: inserting a metrics record whose files-touched, lines-added and
lines-deleted are all zero returns none (`.skipped`) and leaves the store
unchanged, for every agent id and prediction; a record with at least one
of the three non-zero inserts under the freshly generated id (fresh among
both tables, as `uuid4` ids are) and returns it. -/
theorem insert_none_iff_zero_footprint (s : LocalStore)
    (agent_id : Option String) (m : CommandMetrics)
    (pred : Option ModelPrediction) (event_id : String) (t : Real') :
    (m.files_touched_count = 0 ∧ m.lines_added = 0 ∧ m.lines_deleted = 0 →
      insert_command_event s agent_id m pred event_id t = (s, .skipped)) ∧
    (¬(m.files_touched_count = 0 ∧ m.lines_added = 0 ∧ m.lines_deleted = 0) →
      (∀ ce ∈ s.events, ce.id ≠ event_id) →
      hasKey s.queue event_id = false →
      insert_command_event s agent_id m pred event_id t =
        ({ events := s.events ++ [newEventRow agent_id m pred event_id t]
           queue := s.queue ++
             [(event_id, ⟨.pending, 0, none, none⟩)] },
         .inserted event_id)) := by
  constructor
  · intro hz
    have h : zeroFootprint m = true := (zeroFootprint_iff m).mpr hz
    simp [insert_command_event, h]
  · intro hnz hev hq
    have h : zeroFootprint m = false := by
      cases hzf : zeroFootprint m
      · rfl
      · exact absurd ((zeroFootprint_iff m).mp hzf) hnz
    have hA : s.events.any (fun ce => decide (ce.id = event_id)) = false := by
      simp only [List.any_eq_false, decide_eq_true_eq]
      exact hev
    simp [insert_command_event, h, hA, hq]

/-- Witness for C3 at concrete inputs: the zero-footprint record from the
repository's own test is skipped on the empty store, and a non-zero
record is inserted under the fresh id. -/
theorem insert_none_iff_zero_footprint_witness :
    insert_command_event emptyStore (some "agent-1") metricsZero none
      "evt_a" 0 = (emptyStore, .skipped) ∧
    insert_command_event emptyStore (some "agent-1") metricsOne none
      "evt_a" 0 =
      ({ events := emptyStore.events ++
           [newEventRow (some "agent-1") metricsOne none "evt_a" 0]
         queue := emptyStore.queue ++
           [("evt_a", ⟨.pending, 0, none, none⟩)] },
       .inserted "evt_a") :=
  ⟨(insert_none_iff_zero_footprint emptyStore (some "agent-1") metricsZero
      none "evt_a" 0).1 (by decide),
   (insert_none_iff_zero_footprint emptyStore (some "agent-1") metricsOne
      none "evt_a" 0).2 (by decide) (by simp [emptyStore]) (by decide)⟩

/-- The store invariant backing C2: event ids and queue keys are unique
(TEXT PRIMARY KEY on both tables) and every queue row references an
existing event row. -/
def Inv (s : LocalStore) : Prop :=
  (s.events.map (fun ce => ce.id)).Nodup ∧
  (s.queue.map Prod.fst).Nodup ∧
  ∀ k ∈ s.queue.map Prod.fst, k ∈ s.events.map (fun ce => ce.id)

/-- One public `LocalStore` transaction, as performed by the pipeline:
an insert, a bulk mark, or a whole sync pass that returned normally
(`ensure_storage` does not touch rows). -/
inductive Step : LocalStore → LocalStore → Prop
  | insert {s : LocalStore} (agent_id : Option String) (m : CommandMetrics)
      (pred : Option ModelPrediction) (event_id : String) (t : Real') :
      Step s (insert_command_event s agent_id m pred event_id t).1
  | markSynced {s : LocalStore} (ids : List String) (t : Real') :
      Step s (mark_synced s ids t)
  | markSyncFailed {s : LocalStore} (ids : List String) (err : String)
      (t : Real') : Step s (mark_sync_failed s ids err t)
  | syncPass {s : LocalStore} {b : RemoteBehaviour} {bs : Nat} {t : Real'}
      {s' : LocalStore} {r : Nat × Nat}
      (h : sync_pending_events s b bs t = .ok (s', r)) : Step s s'

/-- Stores reachable from a fresh (empty) store by the pipeline's
transactions. -/
inductive Reachable : LocalStore → Prop
  | init : Reachable emptyStore
  | step {s s' : LocalStore} : Reachable s → Step s s' → Reachable s'

theorem inv_of_same_shape (s s' : LocalStore) (hev : s'.events = s.events)
    (hq : s'.queue.map Prod.fst = s.queue.map Prod.fst) (h : Inv s) :
    Inv s' := by
  unfold Inv at *
  rw [hev, hq]
  exact h

theorem mark_synced_shape (s : LocalStore) (ids : List String) (t : Real') :
    (mark_synced s ids t).events = s.events ∧
    (mark_synced s ids t).queue.map Prod.fst = s.queue.map Prod.fst :=
  ⟨rfl, map_fst_bulkUpdate _ _ _⟩

theorem mark_sync_failed_shape (s : LocalStore) (ids : List String)
    (err : String) (t : Real') :
    (mark_sync_failed s ids err t).events = s.events ∧
    (mark_sync_failed s ids err t).queue.map Prod.fst =
      s.queue.map Prod.fst :=
  ⟨rfl, map_fst_bulkUpdate _ _ _⟩

theorem sync_ok_shape (s : LocalStore) (b : RemoteBehaviour) (bs : Nat)
    (t : Real') (s' : LocalStore) (r : Nat × Nat)
    (h : sync_pending_events s b bs t = .ok (s', r)) :
    s'.events = s.events ∧ s'.queue.map Prod.fst = s.queue.map Prod.fst := by
  unfold sync_pending_events at h
  by_cases hemp : (pending_sync_events s bs).isEmpty
  · rw [if_pos hemp] at h
    cases h
    exact ⟨rfl, rfl⟩
  · rw [if_neg hemp] at h
    cases b with
    | transportError msg =>
        simp only at h
        cases h
        exact ⟨rfl, map_fst_bulkUpdate _ _ _⟩
    | response status body =>
        simp only at h
        by_cases hst : badStatus status
        · rw [if_pos hst] at h
          cases h
          exact ⟨rfl, map_fst_bulkUpdate _ _ _⟩
        · rw [if_neg hst] at h
          cases hacc : acceptedOf body with
          | none =>
              simp only [hacc] at h
              cases h
          | some n =>
              simp only [hacc] at h
              by_cases hn : n =
                  (((pending_sync_events s bs).map
                    (fun e => e.event.id)).length : Int)
              · rw [if_pos hn] at h
                cases h
                exact ⟨rfl, map_fst_bulkUpdate _ _ _⟩
              · rw [if_neg hn] at h
                cases h
                exact ⟨rfl, map_fst_bulkUpdate _ _ _⟩

theorem inv_preserved_insert (s : LocalStore) (agent_id : Option String)
    (m : CommandMetrics) (pred : Option ModelPrediction) (event_id : String)
    (t : Real') (hInv : Inv s) :
    Inv (insert_command_event s agent_id m pred event_id t).1 := by
  unfold insert_command_event
  split_ifs with h1 h2
  · exact hInv
  · exact hInv
  · simp only [Bool.or_eq_true, not_or, Bool.not_eq_true] at h2
    obtain ⟨hA, hQ⟩ := h2
    have hAn : event_id ∉ s.events.map (fun ce => ce.id) := by
      intro hm
      obtain ⟨ce, hce, he⟩ := List.mem_map.mp hm
      have := (List.any_eq_false.mp hA) ce hce
      simp [he] at this
    have hQn : event_id ∉ s.queue.map Prod.fst :=
      (hasKey_eq_false_iff s.queue event_id).mp hQ
    obtain ⟨h1, h2, h3⟩ := hInv
    refine ⟨?_, ?_, ?_⟩
    · simp only [List.map_append, List.map_cons, List.map_nil, newEventRow]
      rw [List.nodup_append]
      exact ⟨h1, List.nodup_singleton _, by simpa using hAn⟩
    · simp only [List.map_append, List.map_cons, List.map_nil]
      rw [List.nodup_append]
      exact ⟨h2, List.nodup_singleton _, by simpa using hQn⟩
    · intro k hk
      simp only [List.map_append, List.map_cons, List.map_nil,
        List.mem_append, List.mem_singleton] at hk ⊢
      rcases hk with hk | hk
      · exact Or.inl (h3 k hk)
      · exact Or.inr (by simpa [newEventRow] using hk)

theorem invariant_reachable (s : LocalStore) (h : Reachable s) : Inv s := by
  induction h with
  | init =>
      refine ⟨List.nodup_nil, List.nodup_nil, ?_⟩
      intro k hk
      cases hk
  | step hr hstep ih =>
      cases hstep with
      | insert agent_id m pred event_id t =>
          exact inv_preserved_insert _ agent_id m pred event_id t ih
      | markSynced ids t =>
          exact inv_of_same_shape _ _ (mark_synced_shape _ ids t).1
            (mark_synced_shape _ ids t).2 ih
      | markSyncFailed ids err t =>
          exact inv_of_same_shape _ _ (mark_sync_failed_shape _ ids err t).1
            (mark_sync_failed_shape _ ids err t).2 ih
      | syncPass hok =>
          obtain ⟨hev, hq⟩ := sync_ok_shape _ _ _ _ _ _ hok
          exact inv_of_same_shape _ _ hev hq ih

/-- The atomicity contract of one `insert_command_event` transaction: on
a returned id both rows exist in the result store (the queue row fresh,
pending, attempts 0); on a skip or a rolled-back integrity error the
store is exactly the input store. -/
def insertAtomic (s : LocalStore) (agent_id : Option String)
    (m : CommandMetrics) (pred : Option ModelPrediction)
    (event_id : String) (t : Real') : Prop :=
  match insert_command_event s agent_id m pred event_id t with
  | (s', .inserted eid) =>
      (∃ ce ∈ s'.events, ce.id = eid) ∧
      alookup s'.queue eid = some ⟨.pending, 0, none, none⟩
  | (s', .skipped) => s' = s
  | (s', .integrityError) => s' = s

theorem insert_atomic_holds (s : LocalStore) (agent_id : Option String)
    (m : CommandMetrics) (pred : Option ModelPrediction)
    (event_id : String) (t : Real') :
    insertAtomic s agent_id m pred event_id t := by
  unfold insertAtomic insert_command_event
  split_ifs with h1 h2
  · rfl
  · rfl
  · simp only [Bool.or_eq_true, not_or, Bool.not_eq_true] at h2
    refine ⟨⟨newEventRow agent_id m pred event_id t, by simp, rfl⟩, ?_⟩
    exact alookup_append_fresh s.queue event_id _ h2.2

theorem countP_key_le_one {β : Type} (l : List (String × β)) (eid : String)
    (h : (l.map Prod.fst).Nodup) :
    l.countP (fun r => decide (r.1 = eid)) ≤ 1 := by
  induction l with
  | nil => simp
  | cons r rest ih =>
      rw [List.map_cons, List.nodup_cons] at h
      by_cases he : r.1 = eid
      · have hz : rest.countP (fun x => decide (x.1 = eid)) = 0 := by
          rw [List.countP_eq_zero]
          intro a ha hp
          have ha1 : a.1 = eid := by simpa using hp
          exact h.1 (by
            rw [he, ← ha1]
            exact List.mem_map_of_mem Prod.fst ha)
        rw [List.countP_cons_of_pos _ _ (by simpa using he), hz]
      · rw [List.countP_cons_of_neg _ _ (by simpa using he)]
        exact ih h.2

/-- C2: in every reachable store each command-event id has at most one
sync-queue row, and each insert transaction is atomic: a returned id
means both the event row and its fresh pending queue row (attempts 0)
exist afterwards, while a skipped or rolled-back insert leaves the store
exactly as it was. -/
theorem insert_atomic_and_unique_sync_entry (s : LocalStore)
    (h : Reachable s) :
    (∀ event_id, s.queue.countP (fun r => decide (r.1 = event_id)) ≤ 1) ∧
    (∀ (agent_id : Option String) (m : CommandMetrics)
      (pred : Option ModelPrediction) (event_id : String) (t : Real'),
      insertAtomic s agent_id m pred event_id t) :=
  ⟨fun event_id =>
      countP_key_le_one s.queue event_id (invariant_reachable s h).2.1,
   fun agent_id m pred event_id t =>
      insert_atomic_holds s agent_id m pred event_id t⟩

/-- Witness for C2 at the initial store, stepping the theorem at a
concrete insert. -/
theorem insert_atomic_and_unique_sync_entry_witness :
    insertAtomic emptyStore (some "agent-1") metricsOne none "evt_a" 0 :=
  (insert_atomic_and_unique_sync_entry emptyStore Reachable.init).2
    (some "agent-1") metricsOne none "evt_a" 0

theorem mark_sync_failed_queue (s : LocalStore) (ids : List String)
    (err : String) (t : Real') :
    (mark_sync_failed s ids err t).queue =
      bulkUpdate
        (fun e =>
          { e with attempts := e.attempts + 1,
                   last_attempt_at := some t,
                   last_error := some (pyTruncate err 500) })
        ids s.queue := rfl

theorem mark_synced_queue (s : LocalStore) (ids : List String) (t : Real') :
    (mark_synced s ids t).queue =
      bulkUpdate
        (fun e => { e with status := .synced, last_attempt_at := some t })
        ids s.queue := rfl

theorem pendingJoin_eq_some {q : List (String × SyncQueueEntry)}
    {ce : CommandEvent} {pr : PendingRow}
    (h : pendingJoin q ce = some pr) :
    pr.event = ce ∧ ∃ e, alookup q ce.id = some e ∧ e.status = .pending ∧
      e.attempts = pr.attempts := by
  unfold pendingJoin at h
  cases hl : alookup q ce.id with
  | none => rw [hl] at h; cases h
  | some e =>
      rw [hl] at h
      by_cases hs : e.status = .pending
      · have h2 : some (PendingRow.mk ce e.attempts) = some pr := by
          simpa [hs] using h
        cases h2
        exact ⟨rfl, e, rfl, hs, rfl⟩
      · have h2 : (none : Option PendingRow) = some pr := by
          simp only [Option.some_bind, if_neg hs] at h
          exact h
        cases h2

theorem mem_pending_queue_entry {s : LocalStore} {bs : Nat}
    {pr : PendingRow} (h : pr ∈ pending_sync_events s bs) :
    ∃ e, alookup s.queue pr.event.id = some e ∧ e.status = .pending ∧
      e.attempts = pr.attempts := by
  have h1 : pr ∈ s.events.filterMap (pendingJoin s.queue) := by
    have h2 : pr ∈ (s.events.filterMap (pendingJoin s.queue)).insertionSort
        (fun a b => a.event.executed_at ≤ b.event.executed_at) :=
      List.mem_of_mem_take h
    exact (List.perm_insertionSort _ _).mem_iff.mp h2
  obtain ⟨ce, _, hj⟩ := List.mem_filterMap.mp h1
  obtain ⟨hevent, e, hl, hs, ha⟩ := pendingJoin_eq_some hj
  rw [hevent]
  exact ⟨e, hl, hs, ha⟩

theorem pending_join_ids_sublist (events : List CommandEvent)
    (q : List (String × SyncQueueEntry)) :
    ((events.filterMap (pendingJoin q)).map
      (fun pr => pr.event.id)).Sublist (events.map (fun ce => ce.id)) := by
  induction events with
  | nil => simp
  | cons ce rest ih =>
      rw [List.filterMap_cons]
      cases hj : pendingJoin q ce with
      | none =>
          simp only [List.map_cons]
          exact ih.cons _
      | some pr =>
          have hevent : pr.event = ce := (pendingJoin_eq_some hj).1
          simp only [List.map_cons, hevent]
          exact ih.cons₂ _

theorem pending_ids_nodup (s : LocalStore) (bs : Nat)
    (hev : (s.events.map (fun ce => ce.id)).Nodup) :
    ((pending_sync_events s bs).map (fun pr => pr.event.id)).Nodup := by
  have h1 : ((s.events.filterMap (pendingJoin s.queue)).map
      (fun pr => pr.event.id)).Nodup :=
    hev.sublist (pending_join_ids_sublist s.events s.queue)
  have hperm :
      (((s.events.filterMap (pendingJoin s.queue)).insertionSort
        (fun a b => a.event.executed_at ≤ b.event.executed_at)).map
          (fun pr => pr.event.id)).Perm
      ((s.events.filterMap (pendingJoin s.queue)).map
        (fun pr => pr.event.id)) :=
    (List.perm_insertionSort _ _).map _
  have h2 := (hperm.nodup_iff).mpr h1
  exact h2.sublist ((List.take_sublist bs _).map _)

/-- C1: when the delivery of a non-empty pending batch is judged failed
(transport error, non-success status, or reported accepted-count
differing from the batch size), the pass returns (0 synced, K failed)
having applied `mark_sync_failed` to exactly the batch ids, and every
batch id's queue row keeps status pending with its attempts counter
incremented by exactly 1, the attempt timestamp and the truncated error
string recorded; no id is marked synced. -/
theorem sync_failed_batch_increments_attempts_keeps_pending
    (s : LocalStore) (b : RemoteBehaviour) (bs : Nat) (t : Real')
    (hev : (s.events.map (fun ce => ce.id)).Nodup)
    (hne : pending_sync_events s bs ≠ [])
    (hfail : judgedFailed b (pending_sync_events s bs).length = true) :
    sync_pending_events s b bs t =
      .ok (mark_sync_failed s
            ((pending_sync_events s bs).map (fun e => e.event.id))
            (failMessage b (pending_sync_events s bs).length) t,
          0, (pending_sync_events s bs).length) ∧
    ∀ pr ∈ pending_sync_events s bs, ∃ e,
      alookup s.queue pr.event.id = some e ∧ e.status = .pending ∧
      alookup (mark_sync_failed s
          ((pending_sync_events s bs).map (fun e => e.event.id))
          (failMessage b (pending_sync_events s bs).length) t).queue
          pr.event.id =
        some ⟨.pending, e.attempts + 1, some t,
          some (pyTruncate
            (failMessage b (pending_sync_events s bs).length) 500)⟩ := by
  constructor
  · have hempty : ¬((pending_sync_events s bs).isEmpty = true) := by
      intro hx
      exact hne (List.isEmpty_iff.mp hx)
    unfold sync_pending_events
    rw [if_neg hempty]
    cases b with
    | transportError msg =>
        simp only [failMessage, List.length_map]
    | response status body =>
        by_cases hst : badStatus status
        · simp only [hst, if_true, List.length_map]
        · have hj : ∃ n, acceptedOf body = some n ∧
              n ≠ ((pending_sync_events s bs).length : Int) := by
            simp only [judgedFailed] at hfail
            rw [if_neg hst] at hfail
            cases hacc : acceptedOf body with
            | none => rw [hacc] at hfail; cases hfail
            | some n =>
                rw [hacc] at hfail
                exact ⟨n, rfl, by simpa using hfail⟩
          obtain ⟨n, hacc, hn⟩ := hj
          simp only [if_neg hst, hacc]
          rw [if_neg (by simpa [List.length_map] using hn)]
          simp [List.length_map]
  · intro pr hpr
    obtain ⟨e, hl, hs, ha⟩ := mem_pending_queue_entry hpr
    have hmem : pr.event.id ∈
        (pending_sync_events s bs).map (fun x => x.event.id) :=
      List.mem_map_of_mem _ hpr
    have hnd := pending_ids_nodup s bs hev
    refine ⟨e, hl, hs, ?_⟩
    rw [mark_sync_failed_queue,
      alookup_bulkUpdate_mem _ _ _ _ hnd hmem, hl]
    obtain ⟨st, att, la, le⟩ := e
    simp only [SyncQueueEntry.status] at hs
    subst hs
    rfl

/-- A stored event used to exercise the sync pass. -/
def eventSample : CommandEvent :=
  ⟨"evt_a", none, 0, "abc", 25, 0, 0, 1, 10, 2, none, none, none, none⟩

/-- A store with one pending sync-queue entry. -/
def storeSample : LocalStore :=
  ⟨[eventSample], [("evt_a", ⟨.pending, 0, none, none⟩)]⟩

/-- Witness for C1 at a concrete one-entry batch and a transport error. -/
theorem sync_failed_batch_witness :
    pending_sync_events storeSample 100 ≠ [] ∧
    sync_pending_events storeSample (.transportError "boom") 100 0 =
      .ok (mark_sync_failed storeSample
            ((pending_sync_events storeSample 100).map (fun e => e.event.id))
            (failMessage (.transportError "boom")
              (pending_sync_events storeSample 100).length) 0,
          0, (pending_sync_events storeSample 100).length) :=
  ⟨by decide,
   (sync_failed_batch_increments_attempts_keeps_pending storeSample
      (.transportError "boom") 100 0 (by decide) (by decide) (by decide)).1⟩

/-- C4: when the remote answers with a success status and accepted-count
equal to the batch size, all batch ids transition to synced with the
attempt timestamp recorded, the attempts counter and last error string of
each of those rows are unchanged, and rows outside the batch as well as
the events table are untouched; the pass returns (K synced, 0 failed). -/
theorem sync_success_marks_synced_frame
    (s : LocalStore) (bs : Nat) (t : Real') (status : Int) (n : Int)
    (hev : (s.events.map (fun ce => ce.id)).Nodup)
    (hne : pending_sync_events s bs ≠ [])
    (hst : badStatus status = false)
    (hn : n = ((pending_sync_events s bs).length : Int)) :
    sync_pending_events s (.response status (.jsonAccepted n)) bs t =
      .ok (mark_synced s
            ((pending_sync_events s bs).map (fun e => e.event.id)) t,
          (pending_sync_events s bs).length, 0) ∧
    (∀ pr ∈ pending_sync_events s bs, ∃ e,
      alookup s.queue pr.event.id = some e ∧ e.status = .pending ∧
      alookup (mark_synced s
          ((pending_sync_events s bs).map (fun e => e.event.id)) t).queue
          pr.event.id =
        some ⟨.synced, e.attempts, some t, e.last_error⟩) ∧
    (∀ id, id ∉ (pending_sync_events s bs).map (fun e => e.event.id) →
      alookup (mark_synced s
          ((pending_sync_events s bs).map (fun e => e.event.id)) t).queue
          id =
        alookup s.queue id) ∧
    (mark_synced s
      ((pending_sync_events s bs).map (fun e => e.event.id)) t).events =
      s.events := by
  refine ⟨?_, ?_, ?_, rfl⟩
  · have hempty : ¬((pending_sync_events s bs).isEmpty = true) := by
      intro hx
      exact hne (List.isEmpty_iff.mp hx)
    unfold sync_pending_events
    rw [if_neg hempty]
    simp only [acceptedOf, hst, Bool.false_eq_true, if_false]
    rw [if_pos (by rw [hn]; simp [List.length_map])]
    simp [List.length_map]
  · intro pr hpr
    obtain ⟨e, hl, hs, ha⟩ := mem_pending_queue_entry hpr
    refine ⟨e, hl, hs, ?_⟩
    rw [mark_synced_queue,
      alookup_bulkUpdate_mem _ _ _ _ (pending_ids_nodup s bs hev)
        (List.mem_map_of_mem _ hpr), hl]
    obtain ⟨st, att, la, le⟩ := e
    simp only [SyncQueueEntry.status] at hs
    subst hs
    rfl
  · intro id hid
    rw [mark_synced_queue, alookup_bulkUpdate_not_mem _ _ _ _ hid]

/-- Witness for C4 at a concrete one-entry batch with accepted = 1. -/
theorem sync_success_marks_synced_frame_witness :
    pending_sync_events storeSample 100 ≠ [] ∧
    sync_pending_events storeSample (.response 200 (.jsonAccepted 1)) 100 0 =
      .ok (mark_synced storeSample
            ((pending_sync_events storeSample 100).map (fun e => e.event.id))
            0,
          (pending_sync_events storeSample 100).length, 0) :=
  ⟨by decide,
   (sync_success_marks_synced_frame storeSample 100 0 200 1 (by decide)
      (by decide) (by decide) (by decide)).1⟩

/-- C6 (code bug): the sync pass is not exception-free for every remote
behaviour.  A success-status response whose body `json.loads` cannot
parse raises `json.JSONDecodeError` (not among the caught
`urllib.error.URLError`/`RuntimeError`), and a body whose "accepted"
value `int()` cannot coerce raises `ValueError`/`TypeError`; both escape
to the caller instead of being returned as (synced, failed) counts.  A
transport error, by contrast, is returned as data. -/
theorem sync_raises_on_malformed_success_body :
    sync_pending_events storeSample (.response 200 .notJson) 100 0 =
      .error "json.JSONDecodeError" ∧
    sync_pending_events storeSample (.response 200 .jsonAcceptedNotInt)
      100 0 = .error "ValueError: invalid accepted value" ∧
    sync_pending_events storeSample (.transportError "connection refused")
      100 0 =
      .ok (⟨[eventSample],
            [("evt_a", ⟨.pending, 1, some 0, some "connection refused"⟩)]⟩,
           0, 1) :=
  ⟨rfl, rfl, rfl⟩

theorem isValidEvent_id_isSome {e : IngestEventMsg}
    (h : isValidEvent e = true) : e.id.isSome = true := by
  simp only [isValidEvent, Bool.and_eq_true] at h
  exact h.1.1.1.1.1.1.1.1

theorem insert_batch_count (table : List (String × IngestedRow))
    (events : List IngestEventMsg) :
    (insert_batch table events).2 = events.countP isValidEvent := by
  induction events generalizing table with
  | nil => rfl
  | cons e rest ih =>
      cases hv : isValidEvent e
      · simp only [insert_batch, hv, Bool.false_eq_true, if_false]
        rw [ih table, List.countP_cons_of_neg _ _ (by simp [hv])]
      · have hid := isValidEvent_id_isSome hv
        cases hi : e.id with
        | none => rw [hi] at hid; cases hid
        | some i =>
            simp only [insert_batch, hv, if_true, hi]
            rw [List.countP_cons_of_pos _ _ (by simp [hv])]
            simp only [ih]
  
theorem hasKey_insertOrIgnore_mono (table : List (String × IngestedRow))
    (j i : String) (row : IngestedRow) (h : hasKey table i = true) :
    hasKey (insertOrIgnore table j row) i = true := by
  unfold insertOrIgnore
  split_ifs with hj
  · exact h
  · simp only [hasKey, List.any_append] at *
    rw [h]
    rfl

theorem hasKey_insertOrIgnore_self (table : List (String × IngestedRow))
    (i : String) (row : IngestedRow) :
    hasKey (insertOrIgnore table i row) i = true := by
  unfold insertOrIgnore
  split_ifs with hj
  · exact hj
  · simp [hasKey, List.any_append]

theorem insert_batch_keys_mono (table : List (String × IngestedRow))
    (events : List IngestEventMsg) (i : String)
    (h : hasKey table i = true) :
    hasKey (insert_batch table events).1 i = true := by
  induction events generalizing table with
  | nil => exact h
  | cons e rest ih =>
      cases hv : isValidEvent e
      · simp only [insert_batch, hv, Bool.false_eq_true, if_false]
        exact ih table h
      · cases hi : e.id with
        | none =>
            have hid := isValidEvent_id_isSome hv
            rw [hi] at hid
            cases hid
        | some j =>
            simp only [insert_batch, hv, if_true, hi]
            exact ih _ (hasKey_insertOrIgnore_mono table j i _ h)

theorem insert_batch_contains (table : List (String × IngestedRow))
    (events : List IngestEventMsg) (e : IngestEventMsg) (i : String)
    (hmem : e ∈ events) (hv : isValidEvent e = true) (hi : e.id = some i) :
    hasKey (insert_batch table events).1 i = true := by
  induction events generalizing table with
  | nil => cases hmem
  | cons e0 rest ih =>
      rcases List.mem_cons.mp hmem with rfl | hmem0
      · simp only [insert_batch, hv, if_true, hi]
        exact insert_batch_keys_mono _ rest i
          (hasKey_insertOrIgnore_self table i _)
      · cases hv0 : isValidEvent e0
        · simp only [insert_batch, hv0, Bool.false_eq_true, if_false]
          exact ih table hmem0
        · cases hi0 : e0.id with
          | none =>
              have hid := isValidEvent_id_isSome hv0
              rw [hi0] at hid
              cases hid
          | some j =>
              simp only [insert_batch, hv0, if_true, hi0]
              exact ih _ hmem0

theorem insert_batch_noop (table : List (String × IngestedRow))
    (events : List IngestEventMsg)
    (h : ∀ e ∈ events, isValidEvent e = true →
      ∀ i, e.id = some i → hasKey table i = true) :
    (insert_batch table events).1 = table := by
  induction events generalizing table with
  | nil => rfl
  | cons e rest ih =>
      cases hv : isValidEvent e
      · simp only [insert_batch, hv, Bool.false_eq_true, if_false]
        exact ih table (fun x hx => h x (List.mem_cons_of_mem e hx))
      · cases hi : e.id with
        | none =>
            have hid := isValidEvent_id_isSome hv
            rw [hi] at hid
            cases hid
        | some i =>
            have hk : hasKey table i = true :=
              h e (List.mem_cons_self e rest) hv i hi
            have hins : insertOrIgnore table i (ingestedRowOf e) = table := by
              unfold insertOrIgnore
              rw [if_pos hk]
            simp only [insert_batch, hv, if_true, hi, hins]
            exact ih table (fun x hx => h x (List.mem_cons_of_mem e hx))

/-- C5: the batch-accept operation counts exactly the well-formed events
of the batch (malformed ones are dropped and not counted), whether or not
their ids were already stored; re-running the same batch against the
resulting table is a silent no-op on the table and returns the same
accepted count, and a fully-well-formed batch of size K always reports
accepted = K. -/
theorem insert_batch_accepted_count_idempotent
    (table : List (String × IngestedRow)) (events : List IngestEventMsg) :
    (insert_batch table events).2 = events.countP isValidEvent ∧
    insert_batch (insert_batch table events).1 events =
      insert_batch table events ∧
    ((∀ e ∈ events, isValidEvent e = true) →
      (insert_batch table events).2 = events.length) := by
  refine ⟨insert_batch_count table events, ?_, ?_⟩
  · have hstate : (insert_batch (insert_batch table events).1 events).1 =
        (insert_batch table events).1 :=
      insert_batch_noop _ _
        (fun e he hv i hi => insert_batch_contains table events e i he hv hi)
    have hcount : (insert_batch (insert_batch table events).1 events).2 =
        (insert_batch table events).2 :=
      (insert_batch_count _ events).trans (insert_batch_count table events).symm
    exact Prod.ext hstate hcount
  · intro hall
    rw [insert_batch_count]
    exact List.countP_eq_length.mpr hall

/-- A fully-well-formed submitted event. -/
def ingestMsgSample : IngestEventMsg :=
  ⟨some "evt_a", none, some 0, some "abc", some 25, some 0, some false,
   some 1, some 10, some 2⟩

/-- Witness for C5: a fully-well-formed singleton batch reports
accepted = 1. -/
theorem insert_batch_accepted_count_idempotent_witness :
    (∀ e ∈ [ingestMsgSample], isValidEvent e = true) ∧
    (insert_batch [] [ingestMsgSample]).2 = [ingestMsgSample].length :=
  ⟨by decide,
   (insert_batch_accepted_count_idempotent [] [ingestMsgSample]).2.2
     (by decide)⟩

/-- The path column of a parsed numstat dict. -/
def numstatKeys (m : List (String × Nat × Nat)) : List String :=
  m.map Prod.fst

/-- Total added lines of a parsed numstat dict. -/
def sumAdded (m : List (String × Nat × Nat)) : Nat :=
  (m.map (fun e => e.2.1)).sum

/-- Total deleted lines of a parsed numstat dict. -/
def sumDeleted (m : List (String × Nat × Nat)) : Nat :=
  (m.map (fun e => e.2.2)).sum

theorem sumAdded_dictAdd (m : List (String × Nat × Nat)) (p : String)
    (a d : Nat) : sumAdded (dictAdd m p a d) = sumAdded m + a := by
  induction m with
  | nil => simp [dictAdd, sumAdded]
  | cons r rest ih =>
      obtain ⟨q, x, y⟩ := r
      by_cases hq : q = p <;>
        simp [dictAdd, sumAdded, hq, ih] at * <;> omega

theorem sumDeleted_dictAdd (m : List (String × Nat × Nat)) (p : String)
    (a d : Nat) : sumDeleted (dictAdd m p a d) = sumDeleted m + d := by
  induction m with
  | nil => simp [dictAdd, sumDeleted]
  | cons r rest ih =>
      obtain ⟨q, x, y⟩ := r
      by_cases hq : q = p <;>
        simp [dictAdd, sumDeleted, hq, ih] at * <;> omega

theorem keys_dictAdd_toFinset (m : List (String × Nat × Nat)) (p : String)
    (a d : Nat) :
    (numstatKeys (dictAdd m p a d)).toFinset =
      insert p (numstatKeys m).toFinset := by
  induction m with
  | nil => simp [dictAdd, numstatKeys]
  | cons r rest ih =>
      obtain ⟨q, x, y⟩ := r
      by_cases hq : q = p
      · subst hq
        simp [dictAdd, numstatKeys]
      · simp only [dictAdd, if_neg hq, numstatKeys, List.map_cons,
          List.toFinset_cons] at *
        rw [ih, Finset.Insert.comm]

theorem keys_dictAdd_nodup (m : List (String × Nat × Nat)) (p : String)
    (a d : Nat) (h : (numstatKeys m).Nodup) :
    (numstatKeys (dictAdd m p a d)).Nodup := by
  induction m with
  | nil => simp [dictAdd, numstatKeys]
  | cons r rest ih =>
      obtain ⟨q, x, y⟩ := r
      simp only [numstatKeys, List.map_cons, List.nodup_cons] at h
      by_cases hq : q = p
      · subst hq
        have hrw : dictAdd ((q, x, y) :: rest) q a d =
            (q, x + a, y + d) :: rest := by
          simp [dictAdd]
        rw [hrw]
        simp only [numstatKeys, List.map_cons, List.nodup_cons]
        exact h
      · simp only [dictAdd, if_neg hq, numstatKeys, List.map_cons,
          List.nodup_cons]
        refine ⟨?_, ih h.2⟩
        intro hqmem
        rw [show (dictAdd rest p a d).map Prod.fst =
          numstatKeys (dictAdd rest p a d) from rfl,
          ← List.mem_toFinset, keys_dictAdd_toFinset] at hqmem
        rcases Finset.mem_insert.mp hqmem with he | hmem
        · exact hq he
        · exact h.1 (List.mem_toFinset.mp hmem)

theorem dictGet_dictAdd (m : List (String × Nat × Nat)) (p : String)
    (a d : Nat) (p' : String) :
    dictGet (dictAdd m p a d) p' =
      if p' = p then ((dictGet m p').1 + a, (dictGet m p').2 + d)
      else dictGet m p' := by
  induction m with
  | nil =>
      by_cases h : p' = p
      · subst h
        simp [dictAdd, dictGet]
      · have h2 : ¬(p = p') := fun e => h e.symm
        simp [dictAdd, dictGet, h, h2]
  | cons r rest ih =>
      obtain ⟨q, x, y⟩ := r
      by_cases hq : q = p
      · subst hq
        by_cases hp : p' = q
        · subst hp
          simp [dictAdd, dictGet]
        · have h2 : ¬(q = p') := fun e => hp e.symm
          simp [dictAdd, dictGet, hp, h2]
      · by_cases hp : p' = q
        · subst hp
          simp [dictAdd, dictGet, hq]
        · have h2 : ¬(q = p') := fun e => hp e.symm
          simp [dictAdd, dictGet, hq, hp, h2, ih]

theorem sumAdded_mergeNumstat (w s : List (String × Nat × Nat)) :
    sumAdded (mergeNumstat w s) = sumAdded w + sumAdded s := by
  induction s generalizing w with
  | nil => simp [mergeNumstat, sumAdded]
  | cons r rest ih =>
      obtain ⟨p, a, d⟩ := r
      show sumAdded (mergeNumstat (dictAdd w p a d) rest) = _
      rw [ih, sumAdded_dictAdd]
      simp [sumAdded]
      omega

theorem sumDeleted_mergeNumstat (w s : List (String × Nat × Nat)) :
    sumDeleted (mergeNumstat w s) = sumDeleted w + sumDeleted s := by
  induction s generalizing w with
  | nil => simp [mergeNumstat, sumDeleted]
  | cons r rest ih =>
      obtain ⟨p, a, d⟩ := r
      show sumDeleted (mergeNumstat (dictAdd w p a d) rest) = _
      rw [ih, sumDeleted_dictAdd]
      simp [sumDeleted]
      omega

theorem keys_mergeNumstat_toFinset (w s : List (String × Nat × Nat)) :
    (numstatKeys (mergeNumstat w s)).toFinset =
      (numstatKeys w).toFinset ∪ (numstatKeys s).toFinset := by
  induction s generalizing w with
  | nil => simp [mergeNumstat, numstatKeys]
  | cons r rest ih =>
      obtain ⟨p, a, d⟩ := r
      show (numstatKeys (mergeNumstat (dictAdd w p a d) rest)).toFinset = _
      rw [ih, keys_dictAdd_toFinset]
      simp only [numstatKeys, List.map_cons, List.toFinset_cons]
      rw [Finset.insert_union, Finset.union_insert]

theorem keys_mergeNumstat_nodup (w s : List (String × Nat × Nat))
    (h : (numstatKeys w).Nodup) :
    (numstatKeys (mergeNumstat w s)).Nodup := by
  induction s generalizing w with
  | nil => exact h
  | cons r rest ih =>
      obtain ⟨p, a, d⟩ := r
      exact ih (dictAdd w p a d) (keys_dictAdd_nodup w p a d h)

theorem dictGet_mergeNumstat_not_mem (w s : List (String × Nat × Nat))
    (p : String) (h : p ∉ numstatKeys s) :
    dictGet (mergeNumstat w s) p = dictGet w p := by
  induction s generalizing w with
  | nil => rfl
  | cons r rest ih =>
      obtain ⟨q, a, d⟩ := r
      simp only [numstatKeys, List.map_cons, List.mem_cons, not_or] at h
      show dictGet (mergeNumstat (dictAdd w q a d) rest) p = _
      rw [ih (dictAdd w q a d) (by simpa [numstatKeys] using h.2),
        dictGet_dictAdd, if_neg h.1]

theorem dictGet_mergeNumstat (w s : List (String × Nat × Nat)) (p : String)
    (hs : (numstatKeys s).Nodup) :
    dictGet (mergeNumstat w s) p =
      ((dictGet w p).1 + (dictGet s p).1,
       (dictGet w p).2 + (dictGet s p).2) := by
  induction s generalizing w with
  | nil => simp [mergeNumstat, dictGet]
  | cons r rest ih =>
      obtain ⟨q, a, d⟩ := r
      simp only [numstatKeys, List.map_cons, List.nodup_cons] at hs
      by_cases hp : p = q
      · subst hp
        show dictGet (mergeNumstat (dictAdd w p a d) rest) p = _
        rw [dictGet_mergeNumstat_not_mem _ rest p
            (by simpa [numstatKeys] using hs.1),
          dictGet_dictAdd, if_pos rfl]
        simp [dictGet]
      · have h2 : ¬(q = p) := fun e => hp e.symm
        show dictGet (mergeNumstat (dictAdd w q a d) rest) p = _
        rw [ih (dictAdd w q a d) (by simpa [numstatKeys] using hs.2),
          dictGet_dictAdd, if_neg hp]
        simp [dictGet, h2]

theorem parseNumstatLine_shape (m : List (String × Nat × Nat))
    (line : String) (m' : List (String × Nat × Nat))
    (h : parseNumstatLine m line = .ok m') :
    m' = m ∨ ∃ p a d, m' = dictAdd m p a d := by
  unfold parseNumstatLine at h
  cases hsp : splitTabs line with
  | nil =>
      rw [hsp] at h
      cases h
      exact Or.inl rfl
  | cons a0 rest =>
      cases rest with
      | nil =>
          rw [hsp] at h
          cases h
          exact Or.inl rfl
      | cons d0 rest2 =>
          cases rest2 with
          | nil =>
              rw [hsp] at h
              cases h
              exact Or.inl rfl
          | cons p0 rest3 =>
              rw [hsp] at h
              simp only at h
              cases hA : parseNumstatField a0 with
              | error e =>
                  rw [hA] at h
                  cases h
              | ok va =>
                  rw [hA] at h
                  simp only at h
                  cases hD : parseNumstatField d0 with
                  | error e =>
                      rw [hD] at h
                      cases h
                  | ok vd =>
                      rw [hD] at h
                      cases h
                      exact Or.inr ⟨p0, va, vd, rfl⟩

theorem foldlM_parse_keys_nodup (lines : List String)
    (m0 m : List (String × Nat × Nat))
    (h : lines.foldlM parseNumstatLine m0 = .ok m)
    (h0 : (numstatKeys m0).Nodup) : (numstatKeys m).Nodup := by
  induction lines generalizing m0 with
  | nil =>
      rw [List.foldlM_nil] at h
      cases h
      exact h0
  | cons line rest ih =>
      rw [List.foldlM_cons] at h
      cases hL : parseNumstatLine m0 line with
      | error e =>
          rw [hL] at h
          cases h
      | ok m1 =>
          rw [hL] at h
          refine ih m1 h ?_
          rcases parseNumstatLine_shape m0 line m1 hL with rfl | ⟨p, a, d, rfl⟩
          · exact h0
          · exact keys_dictAdd_nodup m0 p a d h0

theorem parse_numstat_keys_nodup (out : String)
    (m : List (String × Nat × Nat)) (h : parse_numstat out = .ok m) :
    (numstatKeys m).Nodup :=
  foldlM_parse_keys_nodup _ [] m h (by simp [numstatKeys])

/-- C7: with both git commands succeeding, the footprint merges the two
reports by path — per path, added and deleted are summed independently
across the two reports; files-touched is the number of distinct paths
across both reports, and lines added/deleted are the report totals.  The
spec's concrete cases hold: unstaged "2 1 foo" merged with staged
"3 0 foo" gives (1 touched, 5 added, 1 deleted), and a binary placeholder
line counts as touched with 0/0. -/
theorem collect_merges_reports_by_path (outW outS : String)
    (w s : List (String × Nat × Nat))
    (hw : parse_numstat outW = .ok w) (hs : parse_numstat outS = .ok s) :
    collect_git_diff_metrics (.results 0 outW 0 outS) =
      .ok (((numstatKeys w ++ numstatKeys s).toFinset).card,
           sumAdded w + sumAdded s, sumDeleted w + sumDeleted s) ∧
    (∀ p, dictGet (mergeNumstat w s) p =
      ((dictGet w p).1 + (dictGet s p).1,
       (dictGet w p).2 + (dictGet s p).2)) ∧
    collect_git_diff_metrics (.results 0 "2\t1\tfoo" 0 "3\t0\tfoo") =
      .ok (1, 5, 1) ∧
    collect_git_diff_metrics (.results 0 "-\t-\timage.png" 0 "") =
      .ok (1, 0, 0) := by
  refine ⟨?_, fun p => dictGet_mergeNumstat w s p
    (parse_numstat_keys_nodup outS s hs), rfl, rfl⟩
  have hlen : (mergeNumstat w s).length =
      ((numstatKeys w ++ numstatKeys s).toFinset).card := by
    have hnodup : (numstatKeys (mergeNumstat w s)).Nodup :=
      keys_mergeNumstat_nodup w s (parse_numstat_keys_nodup outW w hw)
    calc (mergeNumstat w s).length
        = (numstatKeys (mergeNumstat w s)).length :=
          (List.length_map _ _).symm
      _ = (numstatKeys (mergeNumstat w s)).toFinset.card :=
          (List.toFinset_card_of_nodup hnodup).symm
      _ = ((numstatKeys w).toFinset ∪ (numstatKeys s).toFinset).card := by
          rw [keys_mergeNumstat_toFinset]
      _ = ((numstatKeys w ++ numstatKeys s).toFinset).card := by
          rw [List.toFinset_append]
  have hcoll : collect_git_diff_metrics (.results 0 outW 0 outS) =
      (match parse_numstat outW with
       | .error e => .error e
       | .ok w2 =>
           match parse_numstat outS with
           | .error e => .error e
           | .ok s2 =>
               (.ok ((mergeNumstat w2 s2).length,
                 sumAdded (mergeNumstat w2 s2),
                 sumDeleted (mergeNumstat w2 s2)) :
                 Except String (Nat × Nat × Nat))) := rfl
  rw [hcoll]
  simp only [hw, hs]
  rw [hlen, sumAdded_mergeNumstat, sumDeleted_mergeNumstat]

/-- Witness for C7 at the spec's concrete reports. -/
theorem collect_merges_reports_by_path_witness :
    parse_numstat "2\t1\tfoo" = .ok [("foo", 2, 1)] ∧
    parse_numstat "3\t0\tfoo" = .ok [("foo", 3, 0)] ∧
    collect_git_diff_metrics (.results 0 "2\t1\tfoo" 0 "3\t0\tfoo") =
      .ok (((numstatKeys [("foo", 2, 1)] ++
            numstatKeys [("foo", 3, 0)]).toFinset).card,
           sumAdded [("foo", 2, 1)] + sumAdded [("foo", 3, 0)],
           sumDeleted [("foo", 2, 1)] + sumDeleted [("foo", 3, 0)]) :=
  ⟨rfl, rfl,
   (collect_merges_reports_by_path "2\t1\tfoo" "3\t0\tfoo" _ _ rfl rfl).1⟩

/-- C8 (code bug): the collector degrades to (0, 0, 0) when git cannot be
spawned or either command reports failure, but it is not exception-free
for arbitrary command output: a zero-return-code run whose numstat line
carries a non-numeric, non-placeholder field makes `int()` raise
`ValueError`, which `collect_git_diff_metrics` does not catch. -/
theorem collect_git_raises_on_malformed_numstat :
    collect_git_diff_metrics .spawnFailure = .ok (0, 0, 0) ∧
    collect_git_diff_metrics (.results 1 "" 0 "") = .ok (0, 0, 0) ∧
    collect_git_diff_metrics (.results 0 "" 1 "") = .ok (0, 0, 0) ∧
    collect_git_diff_metrics (.results 0 "x\ty\tfoo" 0 "") =
      .error "ValueError: invalid literal for int: x" :=
  ⟨rfl, rfl, rfl, rfl⟩

/-- `joinSep` at the character-list level. -/
def joinSepData : List (List Char) → List Char
  | [] => []
  | [s] => s
  | s :: rest => s ++ sepChar :: joinSepData rest

theorem string_data_append (a b : String) :
    (a ++ b).data = a.data ++ b.data := rfl

theorem joinSep_data_eq (c : List String) :
    (joinSep c).data = joinSepData (c.map String.data) := by
  induction c with
  | nil => rfl
  | cons s rest ih =>
      cases rest with
      | nil => rfl
      | cons s2 rest2 =>
          show (s ++ sepString ++ joinSep (s2 :: rest2)).data = _
          rw [string_data_append, string_data_append, ih]
          show s.data ++ [sepChar] ++ joinSepData _ = _
          rw [List.append_assoc]
          rfl

theorem append_sep_inj (a b u v : List Char)
    (ha : sepChar ∉ a) (hb : sepChar ∉ b)
    (h : a ++ sepChar :: u = b ++ sepChar :: v) : a = b ∧ u = v := by
  induction a generalizing b with
  | nil =>
      cases b with
      | nil =>
          simp only [List.nil_append, List.cons.injEq] at h
          exact ⟨rfl, h.2⟩
      | cons c bs =>
          simp only [List.nil_append, List.cons_append,
            List.cons.injEq] at h
          exact absurd (h.1 ▸ List.mem_cons_self c bs) hb
  | cons c as ih =>
      cases b with
      | nil =>
          simp only [List.cons_append, List.nil_append,
            List.cons.injEq] at h
          exact absurd (h.1.symm ▸ List.mem_cons_self c as) ha
      | cons c2 bs =>
          simp only [List.cons_append, List.cons.injEq] at h
          obtain ⟨he, ht⟩ := h
          have ha2 : sepChar ∉ as := fun hm => ha (List.mem_cons_of_mem c hm)
          have hb2 : sepChar ∉ bs :=
            fun hm => hb (List.mem_cons_of_mem c2 hm)
          obtain ⟨hab, huv⟩ := ih bs ha2 hb2 ht
          exact ⟨by rw [he, hab], huv⟩

theorem joinSepData_inj (c1 : List (List Char))
    (h1 : ∀ x ∈ c1, sepChar ∉ x) (hne1 : c1 ≠ [])
    (c2 : List (List Char)) (h2 : ∀ x ∈ c2, sepChar ∉ x) (hne2 : c2 ≠ [])
    (h : joinSepData c1 = joinSepData c2) : c1 = c2 := by
  induction c1 generalizing c2 with
  | nil => exact absurd rfl hne1
  | cons s1 rest1 ih =>
      cases c2 with
      | nil => exact absurd rfl hne2
      | cons s2 rest2 =>
          cases rest1 with
          | nil =>
              cases rest2 with
              | nil => rw [show s1 = s2 from h]
              | cons s3 r3 =>
                  exfalso
                  have hmem : sepChar ∈ joinSepData (s2 :: s3 :: r3) := by
                    show sepChar ∈ s2 ++ sepChar :: joinSepData (s3 :: r3)
                    exact List.mem_append_right _
                      (List.mem_cons_self _ _)
                  rw [← h] at hmem
                  exact h1 s1 (List.mem_cons_self _ _) hmem
          | cons s1b r1b =>
              cases rest2 with
              | nil =>
                  exfalso
                  have hmem : sepChar ∈
                      joinSepData (s1 :: s1b :: r1b) := by
                    show sepChar ∈ s1 ++ sepChar :: joinSepData (s1b :: r1b)
                    exact List.mem_append_right _
                      (List.mem_cons_self _ _)
                  rw [h] at hmem
                  exact h2 s2 (List.mem_cons_self _ _) hmem
              | cons s2b r2b =>
                  have h' : s1 ++ sepChar :: joinSepData (s1b :: r1b) =
                      s2 ++ sepChar :: joinSepData (s2b :: r2b) := h
                  obtain ⟨hs, hj⟩ := append_sep_inj s1 s2 _ _
                    (h1 s1 (List.mem_cons_self _ _))
                    (h2 s2 (List.mem_cons_self _ _)) h'
                  have hrest := ih
                    (fun x hx => h1 x (List.mem_cons_of_mem s1 hx))
                    (by simp)
                    (s2b :: r2b)
                    (fun x hx => h2 x (List.mem_cons_of_mem s2 hx))
                    (by simp) hj
                  rw [hs, hrest]

theorem string_data_injective : Function.Injective String.data := by
  intro a b hab
  cases a
  cases b
  cases hab
  rfl

theorem joinSep_inj (c1 c2 : List String)
    (hne1 : c1 ≠ []) (hne2 : c2 ≠ [])
    (h1 : ∀ s ∈ c1, sepChar ∉ s.data) (h2 : ∀ s ∈ c2, sepChar ∉ s.data)
    (h : joinSep c1 = joinSep c2) : c1 = c2 := by
  have hd : joinSepData (c1.map String.data) =
      joinSepData (c2.map String.data) := by
    rw [← joinSep_data_eq, ← joinSep_data_eq, h]
  have hmap := joinSepData_inj (c1.map String.data)
    (by
      intro x hx
      obtain ⟨s, hs, rfl⟩ := List.mem_map.mp hx
      exact h1 s hs)
    (by simpa using hne1)
    (c2.map String.data)
    (by
      intro x hx
      obtain ⟨s, hs, rfl⟩ := List.mem_map.mp hx
      exact h2 s hs)
    (by simpa using hne2) hd
  exact (List.map_injective_iff.mpr string_data_injective) hmap

/-- C9 (amended): `hash_command` is a function of the argument vector, so
identical vectors hash identically, and the hash input — the tokens
joined by the reserved separator byte — is injective on NON-EMPTY vectors
whose tokens avoid the separator; the empty vector must be excluded
because it shares the empty hash input with the one-empty-token vector. -/
theorem hash_command_deterministic_join_injective :
    (∀ c1 c2 : List String, c1 = c2 → hash_command c1 = hash_command c2) ∧
    (∀ c1 c2 : List String, c1 ≠ [] → c2 ≠ [] →
      (∀ s ∈ c1, sepChar ∉ s.data) → (∀ s ∈ c2, sepChar ∉ s.data) →
      joinSep c1 = joinSep c2 → c1 = c2) :=
  ⟨fun c1 c2 h => by rw [h], joinSep_inj⟩

/-- Witness for C9's amended theorem at a concrete vector. -/
theorem hash_command_deterministic_join_injective_witness :
    (∀ s ∈ ["git", "status"], sepChar ∉ s.data) ∧
    (["git", "status"] : List String) = ["git", "status"] :=
  ⟨by decide,
   hash_command_deterministic_join_injective.2 ["git", "status"]
     ["git", "status"] (by decide) (by decide) (by decide) (by decide) rfl⟩

/-- C9 counterexample: the empty vector and the vector holding one empty
token are distinct separator-free argument vectors whose hash inputs (and
hence hashes) coincide, so the hash input is not injective on all
separator-free vectors. -/
theorem hash_command_empty_vector_collision :
    joinSep [] = joinSep [""] ∧
    hash_command [] = hash_command [""] ∧
    ([] : List String) ≠ [""] ∧
    (∀ s ∈ ([] : List String), sepChar ∉ s.data) ∧
    (∀ s ∈ [""], sepChar ∉ s.data) :=
  ⟨rfl, rfl, by decide, by decide, by decide⟩

/-- C10 (amended): a format outside {csv, parquet, jsonl} is rejected
with the unsupported-format error before any output file is opened and
before any rows are written — but after the store has been read and the
output path's parent directories have been created, so the rejection is
not prior to all I/O. -/
theorem export_unsupported_format (rows : List CommandEvent) (fmt : String)
    (pandasAvailable : Bool)
    (h1 : fmt ≠ "csv") (h2 : fmt ≠ "parquet") (h3 : fmt ≠ "jsonl") :
    export_events rows fmt pandasAvailable =
      ([.dbRead, .mkdirParent],
       .error ("ValueError: unsupported format: " ++ fmt)) ∧
    ExportEffect.openOutputFile ∉ (export_events rows fmt pandasAvailable).1 ∧
    ExportEffect.writeRows ∉ (export_events rows fmt pandasAvailable).1 := by
  have he : export_events rows fmt pandasAvailable =
      ([.dbRead, .mkdirParent],
       .error ("ValueError: unsupported format: " ++ fmt)) := by
    unfold export_events
    rw [if_neg h1, if_neg h2, if_neg h3]
  refine ⟨he, ?_, ?_⟩ <;> rw [he] <;> simp

/-- Witness for C10's amended theorem at the format "xml". -/
theorem export_unsupported_format_witness :
    ("xml" : String) ≠ "csv" ∧
    export_events [] "xml" true =
      ([.dbRead, .mkdirParent],
       .error ("ValueError: unsupported format: " ++ "xml")) :=
  ⟨by decide,
   (export_unsupported_format [] "xml" true (by decide) (by decide)
     (by decide)).1⟩

/-- C10 counterexample: for the unsupported format "xml" the rejection is
preceded by the store read and by the `mkdir(parents=True)` of the output
path's parent — with a not-yet-existing parent directory that call
creates it, so I/O (directory creation) does happen before the
unsupported-format error is raised. -/
theorem export_unsupported_mkdir_before_reject :
    export_events [] "xml" true =
      ([.dbRead, .mkdirParent],
       .error "ValueError: unsupported format: xml") ∧
    ExportEffect.mkdirParent ∈ (export_events [] "xml" true).1 ∧
    ExportEffect.dbRead ∈ (export_events [] "xml" true).1 :=
  ⟨rfl, by decide, by decide⟩

/-- The SHA-256 model agrees with the standard test vector for "abc"
(`hashlib.sha256(b"abc").hexdigest()`). -/
theorem sha256Hex_matches_reference_vector :
    sha256Hex (utf8Bytes "abc") =
      "ba7816bf8f01cfea414140de5dae2223b00361a396177a9cb410ff61f20015ad" := by
  rfl
